import Mathlib

/-!
Verification development for the railbot server (src/server.js).

The numeric face descriptors are modelled over `ℚ` (exact arithmetic standing
for the JavaScript floating-point values).  The recognition loop compares
`Math.sqrt(sumSq) < 0.6` and `Math.sqrt(sumSq) < bestDistance`; since the
square root is strictly monotone on nonnegative numbers those comparisons are
equivalent to comparing the sums of squares against `0.36 = (3/5)^2` and
against the best sum of squares, which is how the loop is embedded here.
JavaScript `NaN` (produced when the loop reads the query array out of bounds,
i.e. when a reference descriptor is longer than the query) is modelled by
`Option.none`: every comparison against `NaN` is false, exactly as every
guard here fails on `none`.
-/

namespace Railbot

/-- Record stored in `memory.faces`: `{ name, descriptor }`. -/
structure FaceRecord where
  name : String
  descriptor : List ℚ
deriving DecidableEq

/-- Embedding of the inner loop `for (i = 0; i < knownDesc.length; i++)
computing `sumSq += (knownDesc[i] - desc[i])^2`.  The loop runs over the
reference (`known`) indices; if the query is exhausted first, the JS code
reads `undefined` and the sum becomes `NaN`, modelled as `none`.  If the
reference is exhausted first the remaining query entries are silently
ignored, exactly as in the source. -/
def sumSqAux : List ℚ → List ℚ → Option ℚ
  | [], _ => some 0
  | _ :: _, [] => none
  | k :: ks, d :: ds => (sumSqAux ks ds).map (fun s => (k - d) * (k - d) + s)

/-- Squared Euclidean distance of the recognition loop (`none` = `NaN`). -/
def distSq (known query : List ℚ) : Option ℚ := sumSqAux known query

/-- Square of the recognition threshold `0.6` from line 140 of server.js. -/
def thresholdSq : ℚ := 9 / 25

/-- One iteration of the recognition loop over `memory.faces`: state is
`(bestDistance, recognizedName)` with `none` for `Infinity`/`null`.  The
guard is `distance < 0.6 && distance < bestDistance` (both false on `NaN`). -/
def matchStep (q : List ℚ) (st : Option ℚ × Option String) (r : FaceRecord) :
    Option ℚ × Option String :=
  match distSq r.descriptor q, st.1 with
  | none, _ => st
  | some d, none => if d < thresholdSq then (some d, some r.name) else st
  | some d, some b => if d < thresholdSq ∧ d < b then (some d, some r.name) else st

/-- The recognition loop of the `face-data` handler (lines 127-145):
returns `recognizedName` after scanning all of `faces`. -/
def matchFace (q : List ℚ) (faces : List FaceRecord) : Option String :=
  (faces.foldl (matchStep q) (none, none)).2

theorem sumSqAux_nonneg : ∀ (k d : List ℚ) (s : ℚ), sumSqAux k d = some s → 0 ≤ s := by
  intro k
  induction k with
  | nil =>
    intro d s h
    simp only [sumSqAux, Option.some_inj] at h
    subst h
    exact le_rfl
  | cons a ks ih =>
    intro d s h
    cases d with
    | nil => simp [sumSqAux] at h
    | cons b ds =>
      simp only [sumSqAux, Option.map_eq_some'] at h
      obtain ⟨s', hs', rfl⟩ := h
      have h1 : 0 ≤ (a - b) * (a - b) := mul_self_nonneg _
      have h2 : 0 ≤ s' := ih ds s' hs'
      linarith

theorem sumSqAux_self : ∀ l : List ℚ, sumSqAux l l = some 0 := by
  intro l
  induction l with
  | nil => rfl
  | cons a ks ih => simp [sumSqAux, ih]

theorem sumSqAux_none_iff : ∀ (k d : List ℚ), sumSqAux k d = none ↔ d.length < k.length := by
  intro k
  induction k with
  | nil => intro d; simp [sumSqAux]
  | cons a ks ih =>
    intro d
    cases d with
    | nil => simp [sumSqAux]
    | cons b ds =>
      simp only [sumSqAux, List.length_cons]
      rw [Option.map_eq_none']
      rw [ih ds]
      omega

theorem sumSqAux_eq_zero : ∀ (k d : List ℚ), sumSqAux k d = some 0 → k = d.take k.length := by
  intro k
  induction k with
  | nil => intro d _; rfl
  | cons a ks ih =>
    intro d h
    cases d with
    | nil => simp [sumSqAux] at h
    | cons b ds =>
      simp only [sumSqAux, Option.map_eq_some'] at h
      obtain ⟨s', hs', hsum⟩ := h
      have h1 : 0 ≤ (a - b) * (a - b) := mul_self_nonneg _
      have h2 : 0 ≤ s' := sumSqAux_nonneg ks ds s' hs'
      have hsq : (a - b) * (a - b) = 0 := by linarith
      have hab : a = b := by
        have := mul_self_eq_zero.mp hsq
        linarith
      have hzero : s' = 0 := by linarith
      subst hzero
      simp only [List.length_cons, List.take_succ_cons]
      rw [hab]
      exact congrArg (List.cons b) (ih ds hs')

/-- Full characterization of the recognition fold: either no reference record
passes the threshold and the state is untouched, or the final state holds the
first record attaining the minimal below-threshold squared distance (records
with `NaN` distance never participate). -/
theorem matchFold_spec (q : List ℚ) (faces : List FaceRecord) :
    (faces.foldl (matchStep q) (none, none) = (none, none) ∧
      ∀ r ∈ faces, ∀ d, distSq r.descriptor q = some d → ¬ d < thresholdSq) ∨
    (∃ pre w post d, faces = pre ++ w :: post ∧
      distSq w.descriptor q = some d ∧ d < thresholdSq ∧
      faces.foldl (matchStep q) (none, none) = (some d, some w.name) ∧
      (∀ r ∈ pre, ∀ dr, distSq r.descriptor q = some dr → dr < thresholdSq → d < dr) ∧
      (∀ r ∈ post, ∀ dr, distSq r.descriptor q = some dr → dr < thresholdSq → d ≤ dr)) := by
  induction faces using List.reverseRecOn with
  | nil =>
    left
    exact ⟨rfl, by simp⟩
  | append_singleton l x ih =>
    rw [List.foldl_append, List.foldl_cons, List.foldl_nil]
    rcases ih with ⟨hst, hall⟩ | ⟨pre, w, post, d, hsplit, hdist, hthr, hst, hpre, hpost⟩
    · rw [hst]
      cases hx : distSq x.descriptor q with
      | none =>
        left
        refine ⟨by simp [matchStep, hx], ?_⟩
        intro r hr dr hdr
        rcases List.mem_append.mp hr with hr | hr
        · exact hall r hr dr hdr
        · rw [List.mem_singleton.mp hr] at hdr
          rw [hx] at hdr
          exact absurd hdr (by simp)
      | some dx =>
        by_cases hdx : dx < thresholdSq
        · right
          refine ⟨l, x, [], dx, rfl, hx, hdx, ?_, ?_, by simp⟩
          · simp [matchStep, hx, hdx]
          · intro r hr dr hdr hdrt
            exact absurd hdrt (hall r hr dr hdr)
        · left
          refine ⟨by simp [matchStep, hx, hdx], ?_⟩
          intro r hr dr hdr
          rcases List.mem_append.mp hr with hr | hr
          · exact hall r hr dr hdr
          · rw [List.mem_singleton.mp hr] at hdr
            rw [hx] at hdr
            rw [Option.some_inj.mp hdr] at hdx
            exact hdx
    · rw [hst]
      cases hx : distSq x.descriptor q with
      | none =>
        right
        refine ⟨pre, w, post ++ [x], d, ?_, hdist, hthr, by simp [matchStep, hx], hpre, ?_⟩
        · rw [hsplit]; simp
        · intro r hr dr hdr hdrt
          rcases List.mem_append.mp hr with hr | hr
          · exact hpost r hr dr hdr hdrt
          · rw [List.mem_singleton.mp hr] at hdr
            rw [hx] at hdr
            exact absurd hdr (by simp)
      | some dx =>
        by_cases hdx : dx < thresholdSq ∧ dx < d
        · right
          refine ⟨pre ++ w :: post, x, [], dx, by rw [hsplit], hx, hdx.1, ?_, ?_, by simp⟩
          · simp [matchStep, hx, hdx]
          · intro r hr dr hdr hdrt
            rcases List.mem_append.mp hr with hr | hr
            · exact lt_trans hdx.2 (hpre r hr dr hdr hdrt)
            · rcases List.mem_cons.mp hr with hr | hr
              · rw [hr] at hdr
                rw [hdist] at hdr
                rw [← Option.some_inj.mp hdr]
                exact hdx.2
              · exact lt_of_lt_of_le hdx.2 (hpost r hr dr hdr hdrt)
        · right
          refine ⟨pre, w, post ++ [x], d, ?_, hdist, hthr, by simp [matchStep, hx, hdx], hpre, ?_⟩
          · rw [hsplit]; simp
          · intro r hr dr hdr hdrt
            rcases List.mem_append.mp hr with hr | hr
            · exact hpost r hr dr hdr hdrt
            · rw [List.mem_singleton.mp hr] at hdr
              rw [hx] at hdr
              have hdd : dx = dr := Option.some_inj.mp hdr
              subst hdd
              by_contra hlt
              push_neg at hlt
              exact hdx ⟨hdrt, by linarith⟩

theorem sumSqAux_take : ∀ k d : List ℚ, sumSqAux k d = sumSqAux k (d.take k.length) := by
  intro k
  induction k with
  | nil => intro d; rfl
  | cons a ks ih =>
    intro d
    cases d with
    | nil => rfl
    | cons b ds =>
      simp only [sumSqAux, List.length_cons, List.take_succ_cons]
      rw [ih ds]

theorem distSq_zero_eq (k q : List ℚ) (h : distSq k q = some 0)
    (hl : k.length = q.length) : k = q := by
  have htake := sumSqAux_eq_zero k q h
  rw [hl] at htake
  rw [List.take_length] at htake
  exact htake

/-- C1: the recognition loop accepts a candidate only when its distance is
strictly below the 0.6 threshold and strictly below the best distance so far
(so ties keep the first-seen candidate); it returns no name on an empty face
list or when every candidate is at or above the threshold, and when some
record's descriptor equals the query exactly, an exactly-matching record's
name is returned.  Distances are compared as squares (the square root is
strictly monotone), and the uniform-dimension invariant of the data model is
the hypothesis `hdim`. -/
theorem C1_face_matcher (q : List ℚ) (faces : List FaceRecord)
    (hdim : ∀ r ∈ faces, r.descriptor.length = q.length) :
    (faces = [] → matchFace q faces = none) ∧
    ((∀ r ∈ faces, ∀ d, distSq r.descriptor q = some d → thresholdSq ≤ d) →
      matchFace q faces = none) ∧
    (∀ nm, matchFace q faces = some nm →
      ∃ pre w post d, faces = pre ++ w :: post ∧ w.name = nm ∧
        distSq w.descriptor q = some d ∧ d < thresholdSq ∧
        (∀ r ∈ pre, ∀ dr, distSq r.descriptor q = some dr → dr < thresholdSq → d < dr) ∧
        (∀ r ∈ post, ∀ dr, distSq r.descriptor q = some dr → dr < thresholdSq → d ≤ dr)) ∧
    ((∃ r ∈ faces, r.descriptor = q) →
      ∃ w ∈ faces, w.descriptor = q ∧ matchFace q faces = some w.name) := by
  refine ⟨?_, ?_, ?_, ?_⟩
  · rintro rfl; rfl
  · intro hall
    rcases matchFold_spec q faces with ⟨hst, _⟩ |
      ⟨pre, w, post, d, hsplit, hdist, hthr, _, _, _⟩
    · unfold matchFace; rw [hst]
    · exfalso
      have hw : w ∈ faces := by
        rw [hsplit]; exact List.mem_append_right _ (List.mem_cons_self _ _)
      exact absurd hthr (not_lt.mpr (hall w hw d hdist))
  · intro nm hnm
    rcases matchFold_spec q faces with ⟨hst, _⟩ |
      ⟨pre, w, post, d, hsplit, hdist, hthr, hst, hpre, hpost⟩
    · unfold matchFace at hnm; rw [hst] at hnm; exact absurd hnm (by simp)
    · unfold matchFace at hnm; rw [hst] at hnm
      exact ⟨pre, w, post, d, hsplit, Option.some_inj.mp hnm, hdist, hthr, hpre, hpost⟩
  · rintro ⟨r0, hr0, hdesc⟩
    have hd0 : distSq r0.descriptor q = some 0 := by rw [hdesc]; exact sumSqAux_self q
    have h0thr : (0 : ℚ) < thresholdSq := by norm_num [thresholdSq]
    rcases matchFold_spec q faces with ⟨_, hall⟩ |
      ⟨pre, w, post, d, hsplit, hdist, hthr, hst, hpre, hpost⟩
    · exact absurd h0thr (hall r0 hr0 0 hd0)
    · have hw : w ∈ faces := by
        rw [hsplit]; exact List.mem_append_right _ (List.mem_cons_self _ _)
      have hdnn : 0 ≤ d := sumSqAux_nonneg _ _ _ hdist
      have hmf : matchFace q faces = some w.name := by
        unfold matchFace; rw [hst]
      have hr0s := hr0
      rw [hsplit] at hr0s
      rcases List.mem_append.mp hr0s with hr0p | hr0c
      · have := hpre r0 hr0p 0 hd0 h0thr
        exact absurd this (by linarith)
      · rcases List.mem_cons.mp hr0c with heq | hr0post
        · rw [heq] at hdesc
          exact ⟨w, hw, hdesc, hmf⟩
        · have hle := hpost r0 hr0post 0 hd0 h0thr
          have hd0' : d = 0 := le_antisymm hle hdnn
          rw [hd0'] at hdist
          have hwq : w.descriptor = q := distSq_zero_eq _ _ hdist (hdim w hw)
          exact ⟨w, hw, hwq, hmf⟩

/-- Witness for C1: a one-record reference set whose descriptor equals the
query returns that record's name. -/
theorem C1_face_matcher_witness :
    (∀ r ∈ [FaceRecord.mk "A" [(1 : ℚ)/2]],
        r.descriptor.length = ([(1 : ℚ)/2] : List ℚ).length) ∧
    matchFace [(1 : ℚ)/2] [FaceRecord.mk "A" [(1 : ℚ)/2]] = some "A" := by
  refine ⟨by decide, ?_⟩
  have h := (C1_face_matcher [(1 : ℚ)/2] [FaceRecord.mk "A" [(1 : ℚ)/2]] (by decide)).2.2.2
  obtain ⟨w, hw, _, hm⟩ :=
    h ⟨FaceRecord.mk "A" [(1 : ℚ)/2], List.mem_singleton.mpr rfl, rfl⟩
  rw [List.mem_singleton] at hw
  rw [hw] at hm
  exact hm

/-- C3 counterexample: a reference descriptor strictly shorter than the query
is neither rejected with an error nor skipped: its distance is computed over
the reference's coordinates only (the query is silently truncated), so the
mismatched record is matched although skipping it would yield no match. -/
theorem C3_counterexample :
    ([(1 : ℚ)] : List ℚ).length ≠ ([(1 : ℚ), 5] : List ℚ).length ∧
    matchFace [(1 : ℚ), 5] [FaceRecord.mk "B" [(1 : ℚ)]] = some "B" ∧
    matchFace [(1 : ℚ), 5] [] = none := by
  refine ⟨by decide, ?_, rfl⟩
  norm_num [matchFace, matchStep, distSq, sumSqAux, thresholdSq, List.foldl]

/-- C3 (amended): when a reference descriptor is longer than the query the
accumulated sum is `NaN` (modelled `none`), every comparison on it fails, and
that record is skipped while matching continues against the remaining
records; when it is shorter or of equal length, the distance is computed
against the query silently truncated to the reference's length and no error
is raised. -/
theorem C3_mismatch_policy (q : List ℚ) (r : FaceRecord) (pre post : List FaceRecord) :
    (q.length < r.descriptor.length →
      distSq r.descriptor q = none ∧
      matchFace q (pre ++ r :: post) = matchFace q (pre ++ post)) ∧
    (r.descriptor.length ≤ q.length →
      distSq r.descriptor q = distSq r.descriptor (q.take r.descriptor.length) ∧
      ∃ d, distSq r.descriptor q = some d) := by
  constructor
  · intro hlen
    have hnone : distSq r.descriptor q = none := (sumSqAux_none_iff _ _).mpr hlen
    refine ⟨hnone, ?_⟩
    unfold matchFace
    rw [List.foldl_append, List.foldl_append, List.foldl_cons]
    have hstep : ∀ st, matchStep q st r = st := by
      intro st
      simp [matchStep, distSq] at hnone ⊢
      rw [hnone]
    rw [hstep]
  · intro hlen
    refine ⟨sumSqAux_take _ _, ?_⟩
    cases h : distSq r.descriptor q with
    | none => exact absurd ((sumSqAux_none_iff _ _).mp h) (not_lt.mpr hlen)
    | some d => exact ⟨d, rfl⟩

/-- Witness for C3 (amended) at concrete mismatched records. -/
theorem C3_mismatch_policy_witness :
    (distSq [(1 : ℚ), 2] [(1 : ℚ)] = none ∧
      matchFace [(1 : ℚ)] [FaceRecord.mk "L" [(1 : ℚ), 2]] = matchFace [(1 : ℚ)] []) ∧
    (distSq [(1 : ℚ)] [(1 : ℚ), 5] =
        distSq [(1 : ℚ)] (([(1 : ℚ), 5] : List ℚ).take 1) ∧
      ∃ d, distSq [(1 : ℚ)] [(1 : ℚ), 5] = some d) := by
  constructor
  · exact (C3_mismatch_policy [(1 : ℚ)] (FaceRecord.mk "L" [(1 : ℚ), 2]) [] []).1 (by decide)
  · exact (C3_mismatch_policy [(1 : ℚ), 5] (FaceRecord.mk "B" [(1 : ℚ)]) [] []).2 (by decide)

/-- Conversation log entry `{time, from, text}` (the source's `from` key is a
Lean keyword, rendered here as `author`). -/
structure ConvEntry where
  time : ℕ
  author : String
  text : String
deriving DecidableEq

/-- Emotion history entry `{time, emotion}`. -/
structure EmotionEntry where
  time : ℕ
  emotion : String
deriving DecidableEq

/-- Smart-home state `{ light }`. -/
structure SmartState where
  light : Bool
deriving DecidableEq

/-- The aggregate `memory` object (lines 23-30).  `lastLidarFrame` is absent
initially and set by the first `lidar-data` event; its opaque payload is
modelled by a natural number. -/
structure Memory where
  faces : List FaceRecord
  conversationLog : List ConvEntry
  emotionHistory : List EmotionEntry
  state : SmartState
  lastEmotion : Option String
  lastFaceDescriptor : Option (List ℚ)
  lastLidarFrame : Option ℕ
deriving DecidableEq

/-- The initial memory object (lines 23-30). -/
def initialMemory : Memory :=
  { faces := [], conversationLog := [], emotionHistory := [],
    state := { light := false }, lastEmotion := none,
    lastFaceDescriptor := none, lastLidarFrame := none }

/-- Observable side effects of one handler run: `saveMemory()` calls, `tts`
emissions to the originating socket, `light-state` broadcasts, transcript
echoes, and `lidar-update` broadcasts. -/
inductive Ev where
  | save
  | tts (text : String)
  | broadcast (light : Bool)
  | transcriptEcho (text : String)
  | lidarUpdate
deriving DecidableEq

/-- Recognizer for the flush event. -/
def Ev.isSave : Ev → Bool
  | Ev.save => true
  | _ => false

/-- Memory plus the ordered side effects produced while handling one event. -/
structure HandlerResult where
  mem : Memory
  events : List Ev
deriving DecidableEq

/-- Number of `saveMemory()` calls recorded in a handler run. -/
def HandlerResult.saves (h : HandlerResult) : ℕ :=
  (h.events.filter Ev.isSave).length

/-- Embedding of a `saveMemory()` call (line 42) as a recorded event. -/
def saveMemoryEv (r : HandlerResult) : HandlerResult :=
  { r with events := r.events ++ [Ev.save] }

/-- Embedding of `speakText` (lines 221-230): emit a `tts` event to the
originating socket, then append an assistant-authored conversation entry. -/
def speakText (text : String) (t : ℕ) (r : HandlerResult) : HandlerResult :=
  { mem := { r.mem with
      conversationLog := r.mem.conversationLog ++ [⟨t, "assistant", text⟩] },
    events := r.events ++ [Ev.tts text] }

/-- Embedding of the emotion deduplication (lines 117-122): a present emotion
differing from `lastEmotion` updates `lastEmotion` and appends one history
entry; otherwise nothing changes. -/
def observeEmotion (emotion : Option String) (t : ℕ) (m : Memory) : Memory :=
  match emotion with
  | none => m
  | some e =>
    if some e = m.lastEmotion then m
    else { m with lastEmotion := some e,
                  emotionHistory := m.emotionHistory ++ [⟨t, e⟩] }

/-- Embedding of the `face-data` handler (lines 115-154): emotion dedup,
descriptor caching, recognition over `memory.faces`, and the spoken reaction
to a `happy` emotion.  The handler performs no `saveMemory()` call. -/
def faceDataStep (descriptor : Option (List ℚ)) (emotion : Option String)
    (t : ℕ) (m : Memory) : HandlerResult :=
  let m1 := observeEmotion emotion t m
  let m2 := match descriptor with
    | some d => { m1 with lastFaceDescriptor := some d }
    | none => m1
  let recognizedName : Option String :=
    match descriptor with
    | some d => if 0 < m2.faces.length then matchFace d m2.faces else none
    | none => none
  if emotion = some "happy" then
    let greeting := match recognizedName with
      | some nm => s!"Привет, {nm}! Рад видеть твою улыбку."
      | none => "Привет! Рад видеть твою улыбку."
    speakText greeting t { mem := m2, events := [] }
  else { mem := m2, events := [] }

/-- Embedding of the `smart-home` handler (lines 157-164): only a `light`
device changes state (`action === "on"`), broadcasts, and flushes. -/
def smartHomeStep (device action : String) (m : Memory) : HandlerResult :=
  if device = "light" then
    { mem := { m with state := { light := action == "on" } },
      events := [Ev.broadcast (action == "on"), Ev.save] }
  else { mem := m, events := [] }

/-- Embedding of the `lidar-data` handler (lines 167-170): store the frame
and broadcast it; no `saveMemory()` call. -/
def lidarStep (frame : ℕ) (m : Memory) : HandlerResult :=
  { mem := { m with lastLidarFrame := some frame }, events := [Ev.lidarUpdate] }

/-- JavaScript `toLowerCase`, restricted to the alphabets the commands use:
ASCII capitals and the Russian alphabet (`А..Я` shift by 32, `Ё` maps to
`ё`). -/
def jsLowerChar (c : Char) : Char :=
  if 65 ≤ c.toNat ∧ c.toNat ≤ 90 then Char.ofNat (c.toNat + 32)
  else if 1040 ≤ c.toNat ∧ c.toNat ≤ 1071 then Char.ofNat (c.toNat + 32)
  else if c.toNat = 1025 then Char.ofNat 1105
  else c

/-- Normalized transcript text (`transcript.toLowerCase()`, line 182). -/
def jsToLower (s : String) : List Char := s.data.map jsLowerChar

/-- JavaScript `String.prototype.includes` on character lists. -/
def includesCL (pat : List Char) : List Char → Bool
  | [] => pat.isEmpty
  | c :: cs => pat.isPrefixOf (c :: cs) || includesCL pat cs

/-- JavaScript `String.prototype.trim`. -/
def jsTrim (l : List Char) : List Char :=
  ((l.dropWhile Char.isWhitespace).reverse.dropWhile Char.isWhitespace).reverse

/-- Literal head of the regex `/запомни лицо (как )?(.+)$/`. -/
def rememberTrigger : List Char := "запомни лицо ".data

/-- Literal of the optional linking-word group. -/
def kakWord : List Char := "как ".data

/-- One attempt of the regex at a fixed position: the literal trigger must
match and at least one character must remain for the `(.+)` group. -/
def fireAt (s : List Char) : Option (List Char) :=
  if rememberTrigger.isPrefixOf s then
    if s.drop rememberTrigger.length = [] then none
    else some (s.drop rememberTrigger.length)
  else none

/-- Leftmost regex match: try every position left to right. -/
def findRemember : List Char → Option (List Char)
  | [] => none
  | c :: cs =>
    match fireAt (c :: cs) with
    | some r => some r
    | none => findRemember cs

/-- Group 2 of the regex: the greedy optional group `(как )?` is consumed
exactly when dropping it still leaves a character for `(.+)` (regex
backtracking otherwise gives the group up). -/
def group2 (rest : List Char) : List Char :=
  if kakWord.isPrefixOf rest ∧ rest.drop kakWord.length ≠ [] then
    rest.drop kakWord.length
  else rest

/-- Extracted trimmed name (`match[2].trim()`, line 199), or `none` when the
regex does not match. -/
def extractName (text : List Char) : Option String :=
  (findRemember text).map (fun rest => String.mk (jsTrim (group2 rest)))

/-- Branch bodies of `handleVoiceCommand` (lines 182-216), everything before
the unconditional final `saveMemory()` of line 217. -/
def voiceCore (text : List Char) (t : ℕ) (m : Memory) : HandlerResult :=
  if includesCL "включи свет".data text then
    let r1 := speakText "Хорошо, включаю свет." t
      { mem := { m with state := { light := true } }, events := [] }
    { mem := { r1.mem with conversationLog :=
        r1.mem.conversationLog ++ [⟨t, "assistant", "Свет включен."⟩] },
      events := r1.events ++ [Ev.broadcast true] }
  else if includesCL "выключи свет".data text then
    let r1 := speakText "Выключаю свет." t
      { mem := { m with state := { light := false } }, events := [] }
    { mem := { r1.mem with conversationLog :=
        r1.mem.conversationLog ++ [⟨t, "assistant", "Свет выключен."⟩] },
      events := r1.events ++ [Ev.broadcast false] }
  else if includesCL "запомни лицо".data text then
    match extractName text with
    | none => speakText "Как назвать этого человека?" t { mem := m, events := [] }
    | some n =>
      if n = "" then
        speakText "Как назвать этого человека?" t { mem := m, events := [] }
      else
        match m.lastFaceDescriptor with
        | some dsc =>
          let r1 := speakText s!"Запомнил лицо как {n}." t
            { mem := { m with faces := m.faces ++ [⟨n, dsc⟩] }, events := [] }
          saveMemoryEv
            { r1 with mem := { r1.mem with conversationLog :=
                r1.mem.conversationLog ++ [⟨t, "system", s!"Face \"{n}\" remembered"⟩] } }
        | none => speakText "Не вижу лицо для запоминания." t { mem := m, events := [] }
  else
    let r1 := speakText "Извините, я не понял команду." t { mem := m, events := [] }
    { r1 with mem := { r1.mem with conversationLog :=
        r1.mem.conversationLog ++ [⟨t, "assistant", "Не понял команду."⟩] } }

/-- Embedding of `handleVoiceCommand` (lines 181-218): the matched branch
over the lower-cased transcript, then the unconditional `saveMemory()`. -/
def handleVoiceCommand (transcript : String) (t : ℕ) (m : Memory) : HandlerResult :=
  saveMemoryEv (voiceCore (jsToLower transcript) t m)

/-- Embedding of the `transcriptReceived` handler (lines 91-100): on a final
nonempty transcript, log the user utterance, echo it, run the interpreter,
and call `saveMemory()` once more. -/
def transcriptReceivedStep (isFinal : Bool) (transcript : String) (t : ℕ)
    (m : Memory) : HandlerResult :=
  if isFinal && !(transcript == "") then
    let r := handleVoiceCommand transcript t
      { m with conversationLog := m.conversationLog ++ [⟨t, "user", transcript⟩] }
    { mem := r.mem, events := Ev.transcriptEcho transcript :: (r.events ++ [Ev.save]) }
  else { mem := m, events := [] }

/-- Response of the admin endpoint. -/
inductive AdminResp where
  | unauthorized
  | page (html : String)
deriving DecidableEq

/-- Rendering of the admin page (lines 239-259); `fmt` stands for
`toLocaleTimeString`. -/
def renderAdmin (fmt : ℕ → String) (m : Memory) : String :=
  let h1 := "<h1>Admin Panel</h1>" ++ "<h2>Known Faces:</h2><ul>"
  let h2 := m.faces.foldl (fun acc p => acc ++ "<li>" ++ p.name ++ "</li>") h1
  let h3 := h2 ++ "</ul>" ++ "<h2>Smart Home State:</h2>" ++
    "<p>Light: " ++ (if m.state.light then "ON" else "OFF") ++ "</p>" ++
    "<h2>Emotion History:</h2><pre>"
  let h4 := m.emotionHistory.foldl
    (fun acc e => acc ++ "[" ++ fmt e.time ++ "] " ++ e.emotion ++ "\n") h3
  let h5 := h4 ++ "</pre>" ++ "<h2>Conversation Log:</h2><pre>"
  let h6 := m.conversationLog.foldl
    (fun acc e => acc ++ "[" ++ fmt e.time ++ "] " ++ e.author ++ ": " ++ e.text ++ "\n") h5
  h6 ++ "</pre>"

/-- Embedding of the `GET /admin` handler (lines 233-260): a missing or
wrong token yields the 401 response before any memory content is read. -/
def adminHandler (fmt : ℕ → String) (token : Option String) (validToken : String)
    (m : Memory) : AdminResp :=
  if token = some validToken then AdminResp.page (renderAdmin fmt m)
  else AdminResp.unauthorized

/-- Run-length invariant of the emotion history, plus the link between
`lastEmotion` and the most recent history entry. -/
def EmoInv (m : Memory) : Prop :=
  List.Chain' (fun x y : EmotionEntry => x.emotion ≠ y.emotion) m.emotionHistory ∧
  ∀ x, m.emotionHistory.getLast? = some x → m.lastEmotion = some x.emotion

theorem emoInv_observe (e : Option String) (t : ℕ) (m : Memory) (hm : EmoInv m) :
    EmoInv (observeEmotion e t m) := by
  cases e with
  | none => exact hm
  | some e =>
    simp only [observeEmotion]
    by_cases h : some e = m.lastEmotion
    · rw [if_pos h]; exact hm
    · rw [if_neg h]
      constructor
      · show List.Chain' _ (m.emotionHistory ++ [⟨t, e⟩])
        rw [List.chain'_append]
        refine ⟨hm.1, List.chain'_singleton _, ?_⟩
        intro x hx y hy
        have hy' : y = ⟨t, e⟩ := by
          have := hy
          simp at this
          exact this.symm
        have hx' : m.lastEmotion = some x.emotion := hm.2 x (by simpa using hx)
        subst hy'
        intro hcontra
        exact h (by rw [hx', hcontra])
      · intro x hx
        have hx' : (⟨t, e⟩ : EmotionEntry) = x := by
          have := List.getLast?_concat (l := m.emotionHistory) (a := (⟨t, e⟩ : EmotionEntry))
          rw [show (m.emotionHistory ++ [(⟨t, e⟩ : EmotionEntry)]).getLast? = some x from hx]
            at this
          exact Option.some_inj.mp this.symm
        rw [← hx']

theorem faceDataStep_fields (descriptor : Option (List ℚ)) (emotion : Option String)
    (t : ℕ) (m : Memory) :
    (faceDataStep descriptor emotion t m).mem.emotionHistory
        = (observeEmotion emotion t m).emotionHistory ∧
    (faceDataStep descriptor emotion t m).mem.lastEmotion
        = (observeEmotion emotion t m).lastEmotion ∧
    (faceDataStep descriptor emotion t m).saves = 0 := by
  cases descriptor <;> by_cases he : emotion = some "happy" <;>
    simp [faceDataStep, speakText, HandlerResult.saves, Ev.isSave, he]

theorem emoInv_faceDataStep (descriptor : Option (List ℚ)) (emotion : Option String)
    (t : ℕ) (m : Memory) (hm : EmoInv m) :
    EmoInv (faceDataStep descriptor emotion t m).mem := by
  have h := faceDataStep_fields descriptor emotion t m
  have h2 := emoInv_observe emotion t m hm
  unfold EmoInv at h2 ⊢
  rw [h.1, h.2.1]
  exact h2

/-- A sequence of emotion-only `face-data` events, as the client streams
them. -/
def runEmotions (obs : List (String × ℕ)) (m : Memory) : Memory :=
  obs.foldl (fun mem p => (faceDataStep none (some p.1) p.2 mem).mem) m

/-- The same sequence seen by the deduplication logic alone. -/
def runObserve (obs : List (String × ℕ)) (m : Memory) : Memory :=
  obs.foldl (fun mem p => observeEmotion (some p.1) p.2 mem) m

theorem emoInv_runEmotions (obs : List (String × ℕ)) :
    ∀ m : Memory, EmoInv m → EmoInv (runEmotions obs m) := by
  induction obs with
  | nil => intro m hm; exact hm
  | cons p rest ih =>
    intro m hm
    exact ih _ (emoInv_faceDataStep none (some p.1) p.2 m hm)

theorem observe_fields_congr (e : Option String) (t : ℕ) (m m' : Memory)
    (h1 : m.emotionHistory = m'.emotionHistory)
    (h2 : m.lastEmotion = m'.lastEmotion) :
    (observeEmotion e t m).emotionHistory = (observeEmotion e t m').emotionHistory ∧
    (observeEmotion e t m).lastEmotion = (observeEmotion e t m').lastEmotion := by
  cases e with
  | none => exact ⟨h1, h2⟩
  | some e =>
    simp only [observeEmotion]
    rw [h2]
    by_cases h : some e = m'.lastEmotion
    · rw [if_pos h, if_pos h]; exact ⟨h1, h2⟩
    · rw [if_neg h, if_neg h]
      exact ⟨by simp [h1], by simp⟩

theorem runEmotions_fields (obs : List (String × ℕ)) :
    ∀ m m' : Memory, m.emotionHistory = m'.emotionHistory →
      m.lastEmotion = m'.lastEmotion →
      (runEmotions obs m).emotionHistory = (runObserve obs m').emotionHistory ∧
      (runEmotions obs m).lastEmotion = (runObserve obs m').lastEmotion := by
  induction obs with
  | nil => intro m m' h1 h2; exact ⟨h1, h2⟩
  | cons p rest ih =>
    intro m m' h1 h2
    have hf := faceDataStep_fields none (some p.1) p.2 m
    have hc := observe_fields_congr (some p.1) p.2 m m' h1 h2
    exact ih _ _ (hf.1.trans hc.1) (hf.2.1.trans hc.2)

theorem runObserve_concrete (a b : String) (hab : a ≠ b) (t1 t2 t3 t4 t5 t6 : ℕ) :
    (runObserve [(a, t1), (a, t2), (b, t3), (b, t4), (b, t5), (a, t6)]
        initialMemory).emotionHistory = [⟨t1, a⟩, ⟨t3, b⟩, ⟨t6, a⟩] := by
  simp [runObserve, observeEmotion, initialMemory, hab, Ne.symm hab]

/-- C2: the emotion history never holds two consecutive equal labels; an
observation equal to `lastEmotion` changes nothing while a different one
sets `lastEmotion` and appends exactly one entry; and the observation
sequence `[a, a, b, b, b, a]` from the initial memory yields exactly the
three entries `a, b, a` whose timestamps are non-decreasing. -/
theorem C2_emotion_rle (obs : List (String × ℕ)) (a b : String)
    (t1 t2 t3 t4 t5 t6 : ℕ) (hab : a ≠ b)
    (ht : t1 ≤ t2 ∧ t2 ≤ t3 ∧ t3 ≤ t4 ∧ t4 ≤ t5 ∧ t5 ≤ t6) :
    List.Chain' (fun x y : EmotionEntry => x.emotion ≠ y.emotion)
      (runEmotions obs initialMemory).emotionHistory ∧
    (∀ (e : String) (t : ℕ) (mem : Memory), some e = mem.lastEmotion →
      observeEmotion (some e) t mem = mem) ∧
    (∀ (e : String) (t : ℕ) (mem : Memory), some e ≠ mem.lastEmotion →
      (observeEmotion (some e) t mem).lastEmotion = some e ∧
      (observeEmotion (some e) t mem).emotionHistory
        = mem.emotionHistory ++ [⟨t, e⟩]) ∧
    ((runEmotions [(a, t1), (a, t2), (b, t3), (b, t4), (b, t5), (a, t6)]
        initialMemory).emotionHistory = [⟨t1, a⟩, ⟨t3, b⟩, ⟨t6, a⟩] ∧
      t1 ≤ t3 ∧ t3 ≤ t6) := by
  have hinv : EmoInv initialMemory := ⟨List.chain'_nil, by simp [initialMemory]⟩
  refine ⟨(emoInv_runEmotions obs initialMemory hinv).1, ?_, ?_, ?_, ?_, ?_⟩
  · intro e t mem h
    simp [observeEmotion, if_pos h]
  · intro e t mem h
    simp [observeEmotion, if_neg h]
  · rw [(runEmotions_fields _ initialMemory initialMemory rfl rfl).1]
    exact runObserve_concrete a b hab t1 t2 t3 t4 t5 t6
  · exact le_trans ht.1 ht.2.1
  · exact le_trans ht.2.2.1 (le_trans ht.2.2.2.1 ht.2.2.2.2)

/-- Witness for C2 on two concrete labels and concrete times. -/
theorem C2_emotion_rle_witness :
    (runEmotions [("calm", 1), ("calm", 2), ("sad", 3), ("sad", 4), ("sad", 5), ("calm", 6)]
        initialMemory).emotionHistory = [⟨1, "calm"⟩, ⟨3, "sad"⟩, ⟨6, "calm"⟩] :=
  (C2_emotion_rle [] "calm" "sad" 1 2 3 4 5 6 (by decide)
    (by norm_num)).2.2.2.1

/-- Memory whose transient descriptor cache holds a one-dimensional vector. -/
def mWithFace : Memory := { initialMemory with lastFaceDescriptor := some [1] }

theorem saves_saveMemoryEv (r : HandlerResult) : (saveMemoryEv r).saves = r.saves + 1 := by
  simp [saveMemoryEv, HandlerResult.saves, Ev.isSave, List.filter_append]

/-- C4: interpreting the transcript turning the light on sets
`state.light = true`, emits exactly one speech reply and one broadcast,
and logs the confirmation as a separate assistant entry in addition to the
entry appended by speech output; interpreting the off-command afterwards
sets the light back to `false` symmetrically. -/
theorem C4_light_commands (m : Memory) (t t' : ℕ) :
    (handleVoiceCommand "включи свет" t m).mem.state.light = true ∧
    (handleVoiceCommand "включи свет" t m).events
      = [Ev.tts "Хорошо, включаю свет.", Ev.broadcast true, Ev.save] ∧
    (handleVoiceCommand "включи свет" t m).mem.conversationLog
      = m.conversationLog ++ [⟨t, "assistant", "Хорошо, включаю свет."⟩,
          ⟨t, "assistant", "Свет включен."⟩] ∧
    (handleVoiceCommand "выключи свет" t'
        (handleVoiceCommand "включи свет" t m).mem).mem.state.light = false ∧
    (handleVoiceCommand "выключи свет" t'
        (handleVoiceCommand "включи свет" t m).mem).events
      = [Ev.tts "Выключаю свет.", Ev.broadcast false, Ev.save] ∧
    (handleVoiceCommand "выключи свет" t'
        (handleVoiceCommand "включи свет" t m).mem).mem.conversationLog
      = (handleVoiceCommand "включи свет" t m).mem.conversationLog
        ++ [⟨t', "assistant", "Выключаю свет."⟩,
            ⟨t', "assistant", "Свет выключен."⟩] := by
  have hOn : includesCL "включи свет".data (jsToLower "включи свет") = true := by decide
  have hOff1 : includesCL "включи свет".data (jsToLower "выключи свет") = false := by decide
  have hOff2 : includesCL "выключи свет".data (jsToLower "выключи свет") = true := by decide
  simp [handleVoiceCommand, voiceCore, saveMemoryEv, speakText, hOn, hOff1, hOff2]

/-- C5 counterexample: the interpreter lower-cases the whole transcript
before the regex runs, so the stored record name is the lower-cased `анна`
rather than `Анна`, and the early-return case appends one conversation entry
(the clarifying reply logged by speech output) rather than none. -/
theorem C5_counterexample :
    (handleVoiceCommand "запомни лицо как Анна" 0 mWithFace).mem.faces
      = [FaceRecord.mk "анна" [(1 : ℚ)]] ∧
    ("анна" : String) ≠ "Анна" ∧
    (handleVoiceCommand "запомни лицо" 0 initialMemory).mem.conversationLog.length = 1 := by
  exact ⟨rfl, by decide, rfl⟩

/-- C5 (amended): with a cached descriptor `V`, the remember-face command
appends exactly one record whose name is the lower-cased trailing text
(`анна`), flushing twice (inline and at the end); without a cached
descriptor, or when no name text is extracted, zero records are appended,
a clarifying reply is spoken, and exactly one conversation entry (that
reply, appended by speech output) is logged. -/
theorem C5_remember_face (m : Memory) (t : ℕ) (V : List ℚ) :
    (m.lastFaceDescriptor = some V →
      (handleVoiceCommand "запомни лицо как Анна" t m).mem.faces
        = m.faces ++ [⟨"анна", V⟩] ∧
      (handleVoiceCommand "запомни лицо как Анна" t m).events
        = [Ev.tts "Запомнил лицо как анна.", Ev.save, Ev.save] ∧
      (handleVoiceCommand "запомни лицо как Анна" t m).mem.conversationLog
        = m.conversationLog ++ [⟨t, "assistant", "Запомнил лицо как анна."⟩,
            ⟨t, "system", "Face \"анна\" remembered"⟩]) ∧
    (m.lastFaceDescriptor = none →
      (handleVoiceCommand "запомни лицо как Анна" t m).mem.faces = m.faces ∧
      (handleVoiceCommand "запомни лицо как Анна" t m).events
        = [Ev.tts "Не вижу лицо для запоминания.", Ev.save] ∧
      (handleVoiceCommand "запомни лицо как Анна" t m).mem.conversationLog
        = m.conversationLog
          ++ [⟨t, "assistant", "Не вижу лицо для запоминания."⟩]) ∧
    ((handleVoiceCommand "запомни лицо" t m).mem.faces = m.faces ∧
      (handleVoiceCommand "запомни лицо" t m).events
        = [Ev.tts "Как назвать этого человека?", Ev.save] ∧
      (handleVoiceCommand "запомни лицо" t m).mem.conversationLog
        = m.conversationLog ++ [⟨t, "assistant", "Как назвать этого человека?"⟩]) := by
  have h1 : includesCL "включи свет".data (jsToLower "запомни лицо как Анна") = false := by
    decide
  have h2 : includesCL "выключи свет".data (jsToLower "запомни лицо как Анна") = false := by
    decide
  have h3 : includesCL "запомни лицо".data (jsToLower "запомни лицо как Анна") = true := by
    decide
  have h4 : extractName (jsToLower "запомни лицо как Анна") = some "анна" := by decide
  have h5 : toString "Запомнил лицо как " ++ toString "анна" ++ toString "."
      = "Запомнил лицо как анна." := rfl
  have h6 : toString "Face \"" ++ toString "анна" ++ toString "\" remembered"
      = "Face \"анна\" remembered" := rfl
  have g1 : includesCL "включи свет".data (jsToLower "запомни лицо") = false := by decide
  have g2 : includesCL "выключи свет".data (jsToLower "запомни лицо") = false := by decide
  have g3 : includesCL "запомни лицо".data (jsToLower "запомни лицо") = true := by decide
  have g4 : extractName (jsToLower "запомни лицо") = none := by decide
  refine ⟨fun hd => ?_, fun hd => ?_, ?_⟩
  · simp [handleVoiceCommand, voiceCore, saveMemoryEv, speakText,
      h1, h2, h3, h4, h5, h6, hd]
  · simp [handleVoiceCommand, voiceCore, saveMemoryEv, speakText,
      h1, h2, h3, h4, hd]
  · simp [handleVoiceCommand, voiceCore, saveMemoryEv, speakText, g1, g2, g3, g4]

/-- Witness for C5 (amended) at a concrete memory with a cached
descriptor. -/
theorem C5_remember_face_witness :
    (mWithFace.lastFaceDescriptor = some [(1 : ℚ)] ∧
      (handleVoiceCommand "запомни лицо как Анна" 0 mWithFace).mem.faces
        = mWithFace.faces ++ [⟨"анна", [(1 : ℚ)]⟩]) ∧
    (initialMemory.lastFaceDescriptor = none ∧
      (handleVoiceCommand "запомни лицо как Анна" 0 initialMemory).mem.faces
        = initialMemory.faces) :=
  ⟨⟨rfl, ((C5_remember_face mWithFace 0 [(1 : ℚ)]).1 rfl).1⟩,
    ⟨rfl, ((C5_remember_face initialMemory 0 [(1 : ℚ)]).2.1 rfl).1⟩⟩

/-- C6 counterexample: an unrecognized transcript appends two assistant
entries (the spoken apology logged by speech output, and the fallback note),
not exactly one. -/
theorem C6_counterexample :
    (handleVoiceCommand "привет" 0 initialMemory).mem.conversationLog
      = [⟨0, "assistant", "Извините, я не понял команду."⟩,
          ⟨0, "assistant", "Не понял команду."⟩] ∧
    (handleVoiceCommand "привет" 0 initialMemory).mem.conversationLog.length = 2 := by
  exact ⟨rfl, rfl⟩

/-- C6 (amended): interpreting a transcript matching no command rule never
mutates `faces`, `state`, `emotionHistory` or the transient caches, emits
exactly one speech reply, and appends exactly two assistant-authored
conversation entries (the spoken apology and the fallback note). -/
theorem C6_unrecognized (transcript : String) (t : ℕ) (m : Memory)
    (h1 : includesCL "включи свет".data (jsToLower transcript) = false)
    (h2 : includesCL "выключи свет".data (jsToLower transcript) = false)
    (h3 : includesCL "запомни лицо".data (jsToLower transcript) = false) :
    (handleVoiceCommand transcript t m).mem.faces = m.faces ∧
    (handleVoiceCommand transcript t m).mem.state = m.state ∧
    (handleVoiceCommand transcript t m).mem.emotionHistory = m.emotionHistory ∧
    (handleVoiceCommand transcript t m).mem.lastEmotion = m.lastEmotion ∧
    (handleVoiceCommand transcript t m).mem.lastFaceDescriptor = m.lastFaceDescriptor ∧
    (handleVoiceCommand transcript t m).mem.lastLidarFrame = m.lastLidarFrame ∧
    (handleVoiceCommand transcript t m).mem.conversationLog
      = m.conversationLog ++ [⟨t, "assistant", "Извините, я не понял команду."⟩,
          ⟨t, "assistant", "Не понял команду."⟩] ∧
    (handleVoiceCommand transcript t m).events
      = [Ev.tts "Извините, я не понял команду.", Ev.save] := by
  simp [handleVoiceCommand, voiceCore, saveMemoryEv, speakText, h1, h2, h3]

/-- Witness for C6 (amended) at the transcript `привет`. -/
theorem C6_unrecognized_witness :
    (handleVoiceCommand "привет" 3 mWithFace).events
      = [Ev.tts "Извините, я не понял команду.", Ev.save] :=
  (C6_unrecognized "привет" 3 mWithFace (by decide) (by decide)
    (by decide)).2.2.2.2.2.2.2

/-- C7 counterexample: a successful remember-face command flushes twice
inside the interpreter, and handling any finalized transcript flushes once
more in the caller, so handling is never "exactly one flush". -/
theorem C7_counterexample :
    (handleVoiceCommand "запомни лицо как анна" 0 mWithFace).saves = 2 ∧
    (transcriptReceivedStep true "привет" 0 initialMemory).saves = 2 := by
  exact ⟨rfl, rfl⟩

theorem voiceCore_saves (text : List Char) (t : ℕ) (m : Memory) :
    (voiceCore text t m).saves = 0 ∨ (voiceCore text t m).saves = 1 := by
  unfold voiceCore
  repeat' split
  all_goals first
    | (left; simp [speakText, HandlerResult.saves, Ev.isSave]; done)
    | (right; simp [speakText, saveMemoryEv, HandlerResult.saves, Ev.isSave,
        List.filter_append])

/-- C7 (amended): every interpreter branch ends with a flush as its final
action and flushes once in total, except the successful remember-face branch
which flushes twice; the transcript handler then flushes once more after the
interpreter returns. -/
theorem C7_flush_discipline (transcript : String) (t : ℕ) (m : Memory)
    (hf : transcript ≠ "") :
    (∃ pre, (handleVoiceCommand transcript t m).events = pre ++ [Ev.save]) ∧
    ((handleVoiceCommand transcript t m).saves = 1 ∨
      (handleVoiceCommand transcript t m).saves = 2) ∧
    (transcriptReceivedStep true transcript t m).saves
      = (handleVoiceCommand transcript t
          { m with conversationLog := m.conversationLog
              ++ [⟨t, "user", transcript⟩] }).saves + 1 := by
  have hbeq : (transcript == "") = false := by
    simp [hf]
  refine ⟨⟨(voiceCore (jsToLower transcript) t m).events, rfl⟩, ?_, ?_⟩
  · have h := voiceCore_saves (jsToLower transcript) t m
    have hs : (handleVoiceCommand transcript t m).saves
        = (voiceCore (jsToLower transcript) t m).saves + 1 :=
      saves_saveMemoryEv _
    omega
  · simp [transcriptReceivedStep, hbeq, HandlerResult.saves, Ev.isSave,
      List.filter_append]

/-- Witness for C7 (amended) at the transcript `привет`. -/
theorem C7_flush_discipline_witness :
    ("привет" : String) ≠ "" ∧
    ((handleVoiceCommand "привет" 0 initialMemory).saves = 1 ∨
      (handleVoiceCommand "привет" 0 initialMemory).saves = 2) :=
  ⟨by decide, (C7_flush_discipline "привет" 0 initialMemory (by decide)).2.1⟩

/-- C8 counterexample: the `face-data` and `lidar-data` handlers mutate
durable Memory fields (emotion history, spatial frame) and perform no flush
at all within that step, and nothing is logged about the risk. -/
theorem C8_counterexample :
    (faceDataStep none (some "sad") 0 initialMemory).mem.emotionHistory
      = [⟨0, "sad"⟩] ∧
    initialMemory.emotionHistory = [] ∧
    (faceDataStep none (some "sad") 0 initialMemory).saves = 0 ∧
    (lidarStep 7 initialMemory).mem.lastLidarFrame = some 7 ∧
    initialMemory.lastLidarFrame = none ∧
    (lidarStep 7 initialMemory).saves = 0 := by
  exact ⟨rfl, rfl, rfl, rfl, rfl, rfl⟩

/-- C8 (amended): smart-home light toggles and voice commands flush within
the same step, but face/emotion ingestion and spatial-frame storage mutate
Memory with no flush in that step at all. -/
theorem C8_flush_per_step (m : Memory) (descriptor : Option (List ℚ))
    (emotion : Option String) (t frame : ℕ) (action device : String)
    (transcript : String) :
    (faceDataStep descriptor emotion t m).saves = 0 ∧
    (lidarStep frame m).saves = 0 ∧
    (lidarStep frame m).mem.lastLidarFrame = some frame ∧
    (smartHomeStep "light" action m).saves = 1 ∧
    (smartHomeStep device action m).saves ≤ 1 ∧
    1 ≤ (handleVoiceCommand transcript t m).saves := by
  refine ⟨(faceDataStep_fields descriptor emotion t m).2.2, ?_, rfl, ?_, ?_, ?_⟩
  · simp [lidarStep, HandlerResult.saves, Ev.isSave]
  · simp [smartHomeStep, HandlerResult.saves, Ev.isSave]
  · by_cases h : device = "light" <;>
      simp [smartHomeStep, h, HandlerResult.saves, Ev.isSave]
  · have hs : (handleVoiceCommand transcript t m).saves
        = (voiceCore (jsToLower transcript) t m).saves + 1 :=
      saves_saveMemoryEv _
    omega

/-- C9: a reporting request whose credential does not equal the shared
secret receives the explicit unauthorized response, and that response is
identical for every possible memory contents. -/
theorem C9_admin_unauthorized (fmt : ℕ → String) (token : Option String)
    (validToken : String) (m m' : Memory) (h : token ≠ some validToken) :
    adminHandler fmt token validToken m = AdminResp.unauthorized ∧
    adminHandler fmt token validToken m = adminHandler fmt token validToken m' := by
  unfold adminHandler
  rw [if_neg h, if_neg h]
  exact ⟨rfl, rfl⟩

/-- Witness for C9: a missing token against the default secret, compared
across two different memories. -/
theorem C9_admin_unauthorized_witness :
    adminHandler (fun _ => "") none "secret123" initialMemory
      = AdminResp.unauthorized ∧
    adminHandler (fun _ => "") none "secret123" initialMemory
      = adminHandler (fun _ => "") none "secret123" mWithFace :=
  C9_admin_unauthorized (fun _ => "") none "secret123" initialMemory mWithFace
    (by decide)

/-- C10: a `smart-home` event for the `light` device sets `state.light` to
true exactly when the action string is `on`, broadcasts the new boolean, and
flushes once, changing nothing else; an event for any other device leaves
memory untouched, broadcasts nothing, and performs no flush. -/
theorem C10_smart_home (m : Memory) (device action : String) :
    (device = "light" →
      (smartHomeStep device action m).mem.state.light = (action == "on") ∧
      ((action == "on") = true ↔ action = "on") ∧
      (smartHomeStep device action m).events
        = [Ev.broadcast (action == "on"), Ev.save] ∧
      (smartHomeStep device action m).saves = 1 ∧
      (smartHomeStep device action m).mem.faces = m.faces ∧
      (smartHomeStep device action m).mem.conversationLog = m.conversationLog ∧
      (smartHomeStep device action m).mem.emotionHistory = m.emotionHistory ∧
      (smartHomeStep device action m).mem.lastEmotion = m.lastEmotion ∧
      (smartHomeStep device action m).mem.lastFaceDescriptor = m.lastFaceDescriptor ∧
      (smartHomeStep device action m).mem.lastLidarFrame = m.lastLidarFrame) ∧
    (device ≠ "light" → smartHomeStep device action m = ⟨m, []⟩) := by
  constructor
  · intro h
    subst h
    refine ⟨rfl, beq_iff_eq, rfl, ?_, rfl, rfl, rfl, rfl, rfl, rfl⟩
    simp [smartHomeStep, HandlerResult.saves, Ev.isSave]
  · intro h
    simp [smartHomeStep, h]

/-- Witness for C10 at the `light` and a non-`light` device. -/
theorem C10_smart_home_witness :
    (smartHomeStep "light" "on" initialMemory).mem.state.light = ("on" == "on") ∧
    smartHomeStep "thermostat" "off" initialMemory = ⟨initialMemory, []⟩ :=
  ⟨((C10_smart_home initialMemory "light" "on").1 rfl).1,
    (C10_smart_home initialMemory "thermostat" "off").2 (by decide)⟩

end Railbot
